import Mathlib

/-!
# Verification of the utility module `src/functions.js`

This file gives a shallow embedding of the five pure utility operations of
the repository (`capitalize`, `reverseString`, the `calculator` object,
`caesarCipher` with its helpers `shiftCharacter` and `mod`, and
`analyzeArray`) and proves the behavioural properties stated in the
specification.

Modelling conventions:
* A JS string is modelled as a `List Char` of Unicode scalar values; the
  UTF-16 surrogate-pair representation of astral code points is not
  distinguished (it is irrelevant to the proved properties: such characters
  are non-alphabetic both at the code-unit and the code-point level).
* A JS number is modelled by `JSNumber`: either NaN, negative zero, one of
  the two infinities, or a finite value.  Finite values are carried as exact
  rationals; IEEE-754 rounding of arithmetic results is not modelled (no
  proved property depends on the numeric value of a calculator result).
* A thrown `TypeError` is modelled as `Except.error JSError.invalidArgument`,
  the `"cannot divide by zero"` `Error` as `Except.error JSError.divisionByZero`.
* Dynamic `typeof`-style checks that can never fire for the modelled argument
  domain are absorbed into the Lean argument types, as §9 of the spec
  suggests for statically typed reimplementations; runtime checks that can
  fire on the modelled domain (truthiness, `=== 0`, `Array.isArray`) are
  modelled explicitly.
-/

namespace OdinFunctions

/-- A JS string: the sequence of characters of the string. -/
abbrev JSString := List Char

/-- `capitalize` (functions.js lines 1-11): returns `""` on `""`, otherwise
`string[0].toUpperCase() + string.slice(1)`.  Single-character
`toUpperCase` is modelled by the basic-latin upper-case map `Char.toUpper`;
multi-character Unicode case expansions are outside the model. -/
def capitalize : JSString → JSString
  | [] => []
  | c :: rest => Char.toUpper c :: rest

/-- `reverseString` (functions.js lines 13-24): builds the result by walking
the indices of the input from the last down to the first, appending each
character; on `c :: rest` this appends `c` after the reversal of `rest`. -/
def reverseString : JSString → JSString
  | [] => []
  | c :: rest => reverseString rest ++ [c]

/-- A JS number value: NaN, negative zero, an infinity, or a finite value
(`finite 0` is positive zero). -/
inductive JSNumber where
  | nan
  | negZero
  | posInf
  | negInf
  | finite (q : ℚ)
deriving DecidableEq, Repr

namespace JSNumber

/-- JS truthiness of a number: every number is truthy except `NaN`, `-0`
and `0` (the values for which `!num` is `true`). -/
def truthy : JSNumber → Bool
  | nan => false
  | negZero => false
  | posInf => true
  | negInf => true
  | finite q => decide (q ≠ 0)

/-- The JS comparison `num === 0`: true exactly for `+0` and `-0`
(and false for `NaN`). -/
def eqLitZero : JSNumber → Bool
  | negZero => true
  | finite q => decide (q = 0)
  | _ => false

/-- JS binary `+` on numbers (NaN propagation, infinity and signed-zero
rules; finite addition is exact). -/
def jsAdd : JSNumber → JSNumber → JSNumber
  | nan, _ => nan
  | _, nan => nan
  | posInf, negInf => nan
  | negInf, posInf => nan
  | posInf, _ => posInf
  | _, posInf => posInf
  | negInf, _ => negInf
  | _, negInf => negInf
  | negZero, negZero => negZero
  | negZero, finite q => finite q
  | finite q, negZero => finite q
  | finite a, finite b => finite (a + b)

/-- JS binary `-` on numbers. -/
def jsSub : JSNumber → JSNumber → JSNumber
  | nan, _ => nan
  | _, nan => nan
  | posInf, posInf => nan
  | negInf, negInf => nan
  | posInf, _ => posInf
  | negInf, _ => negInf
  | _, posInf => negInf
  | _, negInf => posInf
  | negZero, negZero => finite 0
  | negZero, finite q => if q = 0 then negZero else finite (-q)
  | finite q, negZero => finite q
  | finite a, finite b => finite (a - b)

/-- JS binary `*` on numbers. -/
def jsMul : JSNumber → JSNumber → JSNumber
  | nan, _ => nan
  | _, nan => nan
  | posInf, posInf => posInf
  | posInf, negInf => negInf
  | negInf, posInf => negInf
  | negInf, negInf => posInf
  | posInf, negZero => nan
  | negZero, posInf => nan
  | negInf, negZero => nan
  | negZero, negInf => nan
  | posInf, finite q => if q = 0 then nan else if 0 < q then posInf else negInf
  | finite q, posInf => if q = 0 then nan else if 0 < q then posInf else negInf
  | negInf, finite q => if q = 0 then nan else if 0 < q then negInf else posInf
  | finite q, negInf => if q = 0 then nan else if 0 < q then negInf else posInf
  | negZero, negZero => finite 0
  | negZero, finite q => if q < 0 then finite 0 else negZero
  | finite q, negZero => if q < 0 then finite 0 else negZero
  | finite a, finite b =>
      if (a = 0 ∨ b = 0) ∧ (a < 0 ∨ b < 0) then negZero else finite (a * b)

/-- JS binary `/` on numbers. -/
def jsDiv : JSNumber → JSNumber → JSNumber
  | nan, _ => nan
  | _, nan => nan
  | posInf, posInf => nan
  | posInf, negInf => nan
  | negInf, posInf => nan
  | negInf, negInf => nan
  | posInf, negZero => negInf
  | negInf, negZero => posInf
  | posInf, finite q => if q < 0 then negInf else posInf
  | negInf, finite q => if q < 0 then posInf else negInf
  | negZero, posInf => negZero
  | negZero, negInf => finite 0
  | finite q, posInf => if q < 0 then negZero else finite 0
  | finite q, negInf => if q < 0 then finite 0 else negZero
  | negZero, negZero => nan
  | negZero, finite q => if q = 0 then nan else if q < 0 then finite 0 else negZero
  | finite q, negZero => if q = 0 then nan else if q < 0 then posInf else negInf
  | finite a, finite b =>
      if b = 0 then (if a = 0 then nan else if a < 0 then negInf else posInf)
      else if a = 0 ∧ b < 0 then negZero
      else finite (a / b)

end JSNumber

/-- Error conditions raised by the module: `invalidArgument` models a thrown
`TypeError`, `divisionByZero` the `"cannot divide by zero"` `Error`. -/
inductive JSError where
  | invalidArgument
  | divisionByZero
deriving DecidableEq, Repr

open JSNumber in
/-- `calculator.add` (functions.js lines 27-32): throws if either argument
is falsy (the `typeof` disjuncts of the guard cannot fire for number
arguments), otherwise returns the sum. -/
def calculator.add (num1 num2 : JSNumber) : Except JSError JSNumber :=
  if !num1.truthy || !num2.truthy then .error .invalidArgument
  else .ok (jsAdd num1 num2)

open JSNumber in
/-- `calculator.subtract` (functions.js lines 33-38). -/
def calculator.subtract (num1 num2 : JSNumber) : Except JSError JSNumber :=
  if !num1.truthy || !num2.truthy then .error .invalidArgument
  else .ok (jsSub num1 num2)

open JSNumber in
/-- `calculator.divide` (functions.js lines 39-48): the falsy guard, then
the `num2 === 0` check, then the quotient. -/
def calculator.divide (num1 num2 : JSNumber) : Except JSError JSNumber :=
  if !num1.truthy || !num2.truthy then .error .invalidArgument
  else if num2.eqLitZero then .error .divisionByZero
  else .ok (jsDiv num1 num2)

open JSNumber in
/-- `calculator.multiply` (functions.js lines 49-54). -/
def calculator.multiply (num1 num2 : JSNumber) : Except JSError JSNumber :=
  if !num1.truthy || !num2.truthy then .error .invalidArgument
  else .ok (jsMul num1 num2)

/-- The four calculator operations, in source order. -/
def calcOps : List (JSNumber → JSNumber → Except JSError JSNumber) :=
  [calculator.add, calculator.subtract, calculator.divide, calculator.multiply]

/-- The JS `%` operator: truncating remainder (sign follows the dividend). -/
def jsRem (n m : Int) : Int := Int.tmod n m

/-- The helper `mod` (functions.js lines 101-103): `((n % m) + m) % m` with
the JS truncating `%`. -/
def mod (n m : Int) : Int := jsRem (jsRem n m + m) m

/-- `"A".charCodeAt(0)`. -/
def A_CODE : Nat := 65

/-- `"a".charCodeAt(0)`. -/
def a_CODE : Nat := 97

/-- The alphabet size constant of `shiftCharacter`. -/
def ALPHABET_SIZE : Nat := 26

/-- `shiftCharacter` (functions.js lines 76-98): normalizes the shift into
`0..25` with `mod`, then shifts upper-case and lower-case basic-latin
letters within their own range and leaves every other character unchanged.
The range tests `"A" <= char && char <= "Z"` are code-point comparisons,
written here on `Char.toNat`; the normalized shift is non-negative, so the
JS `%` in the branches coincides with `Nat` remainder. -/
def shiftCharacter (char : Char) (shiftFactor : Int) : Char :=
  if A_CODE ≤ char.toNat ∧ char.toNat ≤ 90 then
    Char.ofNat (((char.toNat - A_CODE + (mod shiftFactor (ALPHABET_SIZE : Int)).toNat)
      % ALPHABET_SIZE) + A_CODE)
  else if a_CODE ≤ char.toNat ∧ char.toNat ≤ 122 then
    Char.ofNat (((char.toNat - a_CODE + (mod shiftFactor (ALPHABET_SIZE : Int)).toNat)
      % ALPHABET_SIZE) + a_CODE)
  else char

/-- `caesarCipher` (functions.js lines 57-73): shifts every character of the
string (the `for...of` loop concatenates one `shiftCharacter` result per
character; the type checks on the arguments are absorbed into the Lean
types). -/
def caesarCipher (s : JSString) (shiftFactor : Int) : JSString :=
  s.map (fun c => shiftCharacter c shiftFactor)

/-- Argument domain of `analyzeArray`: an actual array of numbers, a string,
or any other non-array value.  Array elements are modelled as exact
rationals. -/
inductive JSArrayArg where
  | arr (xs : List ℚ)
  | str (s : JSString)
  | nonArray
deriving Repr

/-- The result record `{average, min, max, length}` of `analyzeArray`;
`none` models `null`. -/
structure ArrayStats where
  average : Option ℚ
  min : Option ℚ
  max : Option ℚ
  length : Nat
deriving DecidableEq, Repr

/-- `analyzeArray` (functions.js lines 105-120): rejects any non-array
(`Array.isArray`), returns the all-`null` record on `[]`, and otherwise
`reduce((a, b) => a + b)` over the elements (a left fold started at the
first element) divided by the length, `Math.min(...arr)`, `Math.max(...arr)`
and the length. -/
def analyzeArray : JSArrayArg → Except JSError ArrayStats
  | .str _ => .error .invalidArgument
  | .nonArray => .error .invalidArgument
  | .arr [] => .ok ⟨none, none, none, 0⟩
  | .arr (x :: xs) =>
      .ok { average := some (xs.foldl (· + ·) x / ((xs.length + 1 : Nat) : ℚ))
            min := some (xs.foldl Min.min x)
            max := some (xs.foldl Max.max x)
            length := xs.length + 1 }

/-! ## Helper lemmas -/

/-- The JS truncating remainder by 26 is greater than `-26`. -/
theorem tmod_lower_bound (n : Int) : -26 < Int.tmod n 26 := by
  cases n with
  | ofNat m =>
      have h : 0 ≤ Int.tmod (Int.ofNat m) 26 := Int.tmod_nonneg _ (Int.ofNat_nonneg m)
      omega
  | negSucc m =>
      have h : Int.tmod (Int.negSucc m) 26 = -(((m + 1) % 26 : Nat) : Int) := rfl
      have h2 : (m + 1) % 26 < 26 := Nat.mod_lt _ (by decide)
      omega

/-- The source helper `mod` agrees with mathematical modulo (`Int.emod`)
at modulus 26. -/
theorem mod_eq_emod (n : Int) : mod n 26 = n % 26 := by
  have h1 : Int.tmod n 26 = n - 26 * Int.tdiv n 26 := Int.tmod_def n 26
  have h2 : Int.tmod n 26 < 26 := Int.tmod_lt_of_pos n (by decide)
  have h3 : -26 < Int.tmod n 26 := tmod_lower_bound n
  have h4 : (0 : Int) ≤ Int.tmod n 26 + 26 := by omega
  have h5 : Int.tmod (Int.tmod n 26 + 26) 26 = (Int.tmod n 26 + 26) % 26 :=
    Int.tmod_eq_emod h4 (by decide)
  unfold mod jsRem
  rw [h5]
  omega

/-- `Char.ofNat` inverts `Char.toNat` on every value below the surrogate
range. -/
theorem char_toNat_ofNat {m : Nat} (h : m < 55296) : (Char.ofNat m).toNat = m := by
  have hv : m.isValidChar := Or.inl h
  unfold Char.ofNat
  rw [dif_pos hv]
  rfl

/-- Characters with equal code points are equal. -/
theorem char_eq_of_toNat_eq {a b : Char} (h : a.toNat = b.toNat) : a = b := by
  have h2 := congrArg Char.ofNat h
  rwa [Char.ofNat_toNat, Char.ofNat_toNat] at h2

/-- Code point of `shiftCharacter` on an upper-case letter. -/
theorem shiftCharacter_upper {c : Char} (k : Int) (h1 : 65 ≤ c.toNat) (h2 : c.toNat ≤ 90) :
    (shiftCharacter c k).toNat = ((c.toNat - 65 + (k % 26).toNat) % 26) + 65 := by
  simp only [shiftCharacter, A_CODE, a_CODE, ALPHABET_SIZE, Nat.cast_ofNat]
  rw [if_pos (And.intro h1 h2), mod_eq_emod]
  rw [char_toNat_ofNat (by omega)]

/-- Code point of `shiftCharacter` on a lower-case letter. -/
theorem shiftCharacter_lower {c : Char} (k : Int) (h1 : 97 ≤ c.toNat) (h2 : c.toNat ≤ 122) :
    (shiftCharacter c k).toNat = ((c.toNat - 97 + (k % 26).toNat) % 26) + 97 := by
  simp only [shiftCharacter, A_CODE, a_CODE, ALPHABET_SIZE, Nat.cast_ofNat]
  rw [if_neg (by omega), if_pos (And.intro h1 h2), mod_eq_emod]
  rw [char_toNat_ofNat (by omega)]

/-- `shiftCharacter` leaves non-alphabetic characters unchanged. -/
theorem shiftCharacter_other {c : Char} (k : Int)
    (h1 : ¬(65 ≤ c.toNat ∧ c.toNat ≤ 90)) (h2 : ¬(97 ≤ c.toNat ∧ c.toNat ≤ 122)) :
    shiftCharacter c k = c := by
  simp only [shiftCharacter, A_CODE, a_CODE, ALPHABET_SIZE, Nat.cast_ofNat]
  rw [if_neg h1, if_neg h2]

/-- Shifting by `k` and then by `-k` restores every character. -/
theorem shiftCharacter_roundtrip (c : Char) (k : Int) :
    shiftCharacter (shiftCharacter c k) (-k) = c := by
  have hk1 : 0 ≤ k % 26 := Int.emod_nonneg k (by decide)
  have hk2 : k % 26 < 26 := Int.emod_lt_of_pos k (by decide)
  have hk3 : 0 ≤ (-k) % 26 := Int.emod_nonneg (-k) (by decide)
  have hk4 : (-k) % 26 < 26 := Int.emod_lt_of_pos (-k) (by decide)
  have hsum : (k % 26 + (-k) % 26) % 26 = 0 := by omega
  by_cases hu : 65 ≤ c.toNat ∧ c.toNat ≤ 90
  · obtain ⟨h1, h2⟩ := hu
    have e1 := shiftCharacter_upper k h1 h2
    have hm : (c.toNat - 65 + (k % 26).toNat) % 26 < 26 := Nat.mod_lt _ (by decide)
    have b1 : 65 ≤ (shiftCharacter c k).toNat := by omega
    have b2 : (shiftCharacter c k).toNat ≤ 90 := by omega
    have e2 := shiftCharacter_upper (-k) b1 b2
    apply char_eq_of_toNat_eq
    rw [e2, e1]
    omega
  · by_cases hl : 97 ≤ c.toNat ∧ c.toNat ≤ 122
    · obtain ⟨h1, h2⟩ := hl
      have e1 := shiftCharacter_lower k h1 h2
      have hm : (c.toNat - 97 + (k % 26).toNat) % 26 < 26 := Nat.mod_lt _ (by decide)
      have b1 : 97 ≤ (shiftCharacter c k).toNat := by omega
      have b2 : (shiftCharacter c k).toNat ≤ 122 := by omega
      have e2 := shiftCharacter_lower (-k) b1 b2
      apply char_eq_of_toNat_eq
      rw [e2, e1]
      omega
    · rw [shiftCharacter_other k hu hl, shiftCharacter_other (-k) hu hl]

/-- `shiftCharacter` depends on the shift factor only through its value
modulo 26. -/
theorem shiftCharacter_congr (c : Char) {k j : Int} (h : k % 26 = j % 26) :
    shiftCharacter c k = shiftCharacter c j := by
  simp only [shiftCharacter, A_CODE, a_CODE, ALPHABET_SIZE, Nat.cast_ofNat, mod_eq_emod, h]

/-- A zero shift fixes every character. -/
theorem shiftCharacter_zero (c : Char) : shiftCharacter c 0 = c := by
  by_cases hu : 65 ≤ c.toNat ∧ c.toNat ≤ 90
  · apply char_eq_of_toNat_eq
    rw [shiftCharacter_upper 0 hu.1 hu.2]
    omega
  · by_cases hl : 97 ≤ c.toNat ∧ c.toNat ≤ 122
    · apply char_eq_of_toNat_eq
      rw [shiftCharacter_lower 0 hl.1 hl.2]
      omega
    · exact shiftCharacter_other 0 hu hl

/-- `caesarCipher` depends on the shift factor only through its value
modulo 26. -/
theorem caesarCipher_shift_congr (s : JSString) {k j : Int} (h : k % 26 = j % 26) :
    caesarCipher s k = caesarCipher s j := by
  induction s with
  | nil => rfl
  | cons c rest ih =>
      simp only [caesarCipher, List.map_cons] at ih ⊢
      rw [shiftCharacter_congr c h, ih]

/-- A zero shift fixes every string. -/
theorem caesarCipher_zero_shift (s : JSString) : caesarCipher s 0 = s := by
  induction s with
  | nil => rfl
  | cons c rest ih =>
      simp only [caesarCipher, List.map_cons] at ih ⊢
      rw [shiftCharacter_zero, ih]

/-- Any multiple of 26 as shift fixes every string. -/
theorem caesarCipher_mul26 (s : JSString) (j : Int) : caesarCipher s (26 * j) = s := by
  have h : (26 * j) % 26 = (0 : Int) % 26 := by
    rw [Int.mul_emod_right, Int.zero_emod]
  rw [caesarCipher_shift_congr s h, caesarCipher_zero_shift]

/-- `reverseString` computes list reversal. -/
theorem reverseString_eq_reverse (s : JSString) : reverseString s = s.reverse := by
  induction s with
  | nil => rfl
  | cons c rest ih => simp [reverseString, ih]

/-- The fold of `reduce((a, b) => a + b)` computes the sum. -/
theorem foldl_add_eq_sum (xs : List ℚ) (x : ℚ) : xs.foldl (· + ·) x = x + xs.sum := by
  induction xs generalizing x with
  | nil => simp
  | cons y ys ih =>
      rw [List.foldl_cons, ih, List.sum_cons]
      ring

/-- The fold of `Math.min` returns an element of the list. -/
theorem foldl_min_mem (xs : List ℚ) : ∀ x : ℚ, xs.foldl Min.min x ∈ x :: xs := by
  induction xs with
  | nil => intro x; simp
  | cons z zs ih =>
      intro x
      rw [List.foldl_cons]
      rcases List.mem_cons.mp (ih (Min.min x z)) with h1 | h1
      · rcases min_choice x z with hc | hc
        · rw [h1, hc]
          exact List.mem_cons_self _ _
        · rw [h1, hc]
          exact List.mem_cons_of_mem _ (List.mem_cons_self _ _)
      · exact List.mem_cons_of_mem _ (List.mem_cons_of_mem _ h1)

/-- The fold of `Math.min` is a lower bound of the list. -/
theorem foldl_min_le (xs : List ℚ) : ∀ x y : ℚ, y ∈ x :: xs → xs.foldl Min.min x ≤ y := by
  induction xs with
  | nil =>
      intro x y h
      simp only [List.mem_singleton] at h
      simp [h]
  | cons z zs ih =>
      intro x y h
      rw [List.foldl_cons]
      rcases List.mem_cons.mp h with h1 | h1
      · rw [h1]
        exact le_trans (ih (Min.min x z) (Min.min x z) (List.mem_cons_self _ _))
          (min_le_left x z)
      · rcases List.mem_cons.mp h1 with h2 | h2
        · rw [h2]
          exact le_trans (ih (Min.min x z) (Min.min x z) (List.mem_cons_self _ _))
            (min_le_right x z)
        · exact ih (Min.min x z) y (List.mem_cons_of_mem _ h2)

/-- The fold of `Math.max` returns an element of the list. -/
theorem foldl_max_mem (xs : List ℚ) : ∀ x : ℚ, xs.foldl Max.max x ∈ x :: xs := by
  induction xs with
  | nil => intro x; simp
  | cons z zs ih =>
      intro x
      rw [List.foldl_cons]
      rcases List.mem_cons.mp (ih (Max.max x z)) with h1 | h1
      · rcases max_choice x z with hc | hc
        · rw [h1, hc]
          exact List.mem_cons_self _ _
        · rw [h1, hc]
          exact List.mem_cons_of_mem _ (List.mem_cons_self _ _)
      · exact List.mem_cons_of_mem _ (List.mem_cons_of_mem _ h1)

/-- The fold of `Math.max` is an upper bound of the list. -/
theorem foldl_le_max (xs : List ℚ) : ∀ x y : ℚ, y ∈ x :: xs → y ≤ xs.foldl Max.max x := by
  induction xs with
  | nil =>
      intro x y h
      simp only [List.mem_singleton] at h
      simp [h]
  | cons z zs ih =>
      intro x y h
      rw [List.foldl_cons]
      rcases List.mem_cons.mp h with h1 | h1
      · rw [h1]
        exact le_trans (le_max_left x z)
          (ih (Max.max x z) (Max.max x z) (List.mem_cons_self _ _))
      · rcases List.mem_cons.mp h1 with h2 | h2
        · rw [h2]
          exact le_trans (le_max_right x z)
            (ih (Max.max x z) (Max.max x z) (List.mem_cons_self _ _))
        · exact ih (Max.max x z) y (List.mem_cons_of_mem _ h2)

/-- A number that compares `=== 0` is falsy. -/
theorem truthy_false_of_eqLitZero {n : JSNumber} (h : n.eqLitZero = true) :
    n.truthy = false := by
  cases n <;> simp_all [JSNumber.eqLitZero, JSNumber.truthy]

/-- A truthy number does not compare `=== 0`. -/
theorem eqLitZero_false_of_truthy {n : JSNumber} (h : n.truthy = true) :
    n.eqLitZero = false := by
  cases n <;> simp_all [JSNumber.eqLitZero, JSNumber.truthy]

/-! ## Claims -/

/-- Claim C1: for each of the four calculator operations, if either argument
is the literal value `0` (a falsy value), the operation returns
`InvalidArgument` rather than any arithmetic result; in particular
`divide(0, x)` fails for every numeric `x` instead of returning `0`. -/
theorem calculator_rejects_zero_args :
    ∀ op ∈ calcOps, ∀ n : JSNumber,
      op (.finite 0) n = .error .invalidArgument
      ∧ op n (.finite 0) = .error .invalidArgument := by
  intro op hop n
  simp only [calcOps, List.mem_cons, List.not_mem_nil, or_false] at hop
  rcases hop with rfl | rfl | rfl | rfl <;> constructor <;>
    simp [calculator.add, calculator.subtract, calculator.divide, calculator.multiply,
      JSNumber.truthy]

/-- Witness for C1: `add(0, 5)` raises `InvalidArgument`. -/
theorem calculator_rejects_zero_args_witness :
    calculator.add (.finite 0) (.finite 5) = .error .invalidArgument
    ∧ calculator.add (.finite 5) (.finite 0) = .error .invalidArgument :=
  calculator_rejects_zero_args calculator.add (by simp [calcOps]) (.finite 5)

/-- Claim C2: `capitalize` upper-cases the first character and leaves the
remainder of the string unchanged; the empty string maps to itself. -/
theorem capitalize_spec (c : Char) (rest : JSString) :
    capitalize [] = ([] : JSString)
    ∧ (capitalize (c :: rest)).head? = some (Char.toUpper c)
    ∧ (capitalize (c :: rest)).tail = rest :=
  ⟨rfl, rfl, rfl⟩

/-- Claim C3: the explicit zero-divisor branch of `divide` is unreachable:
a second argument comparing `=== 0` is already rejected as falsy with
`InvalidArgument`, and no input whatsoever makes `divide` return the
distinct `DivisionByZero` condition. -/
theorem divide_zero_check_unreachable (n1 n2 : JSNumber) :
    (n2.eqLitZero = true → calculator.divide n1 n2 = .error .invalidArgument)
    ∧ calculator.divide n1 n2 ≠ .error .divisionByZero := by
  constructor
  · intro h
    have ht := truthy_false_of_eqLitZero h
    simp [calculator.divide, ht]
  · intro hcon
    by_cases hb2 : n2.truthy = true
    · by_cases hb1 : n1.truthy = true
      · simp [calculator.divide, hb1, hb2, eqLitZero_false_of_truthy hb2] at hcon
      · rw [Bool.not_eq_true] at hb1
        simp [calculator.divide, hb1] at hcon
    · rw [Bool.not_eq_true] at hb2
      simp [calculator.divide, hb2] at hcon

/-- Witness for C3: `divide(1, 0)` raises `InvalidArgument`, not
`DivisionByZero`. -/
theorem divide_zero_check_unreachable_witness :
    calculator.divide (.finite 1) (.finite 0) = .error .invalidArgument
    ∧ calculator.divide (.finite 1) (.finite 0) ≠ .error .divisionByZero :=
  ⟨(divide_zero_check_unreachable (.finite 1) (.finite 0)).1 (by decide),
   (divide_zero_check_unreachable (.finite 1) (.finite 0)).2⟩

/-- Claim C4: for every string and every integer shift `k`, enciphering with
`k` and then with `-k` returns the original string. -/
theorem caesarCipher_roundtrip (s : JSString) (k : Int) :
    caesarCipher (caesarCipher s k) (-k) = s := by
  induction s with
  | nil => rfl
  | cons c rest ih =>
      simp only [caesarCipher, List.map_cons] at ih ⊢
      rw [shiftCharacter_roundtrip, ih]

/-- Claim C5: `shiftCharacter` moves an upper-case letter to an upper-case
letter and a lower-case letter to a lower-case letter, in both cases to the
code point congruent to `code + shift` modulo 26 within the case's range
(circular forward shift); every other character is unchanged; and
`caesarCipher("Hello, World!", 3) = "Khoor, Zruog!"`. -/
theorem shiftCharacter_spec (c : Char) (k : Int) :
    (65 ≤ c.toNat ∧ c.toNat ≤ 90 →
      65 ≤ (shiftCharacter c k).toNat ∧ (shiftCharacter c k).toNat ≤ 90
      ∧ ((shiftCharacter c k).toNat : Int) ≡ (c.toNat : Int) + k [ZMOD 26])
    ∧ (97 ≤ c.toNat ∧ c.toNat ≤ 122 →
      97 ≤ (shiftCharacter c k).toNat ∧ (shiftCharacter c k).toNat ≤ 122
      ∧ ((shiftCharacter c k).toNat : Int) ≡ (c.toNat : Int) + k [ZMOD 26])
    ∧ (¬(65 ≤ c.toNat ∧ c.toNat ≤ 90) → ¬(97 ≤ c.toNat ∧ c.toNat ≤ 122) →
      shiftCharacter c k = c)
    ∧ caesarCipher "Hello, World!".toList 3 = "Khoor, Zruog!".toList := by
  have hk1 : 0 ≤ k % 26 := Int.emod_nonneg k (by decide)
  have hk2 : k % 26 < 26 := Int.emod_lt_of_pos k (by decide)
  refine ⟨?_, ?_, ?_, by decide⟩
  · rintro ⟨h1, h2⟩
    rw [shiftCharacter_upper k h1 h2]
    have hm : (c.toNat - 65 + (k % 26).toNat) % 26 < 26 := Nat.mod_lt _ (by decide)
    refine ⟨by omega, by omega, ?_⟩
    unfold Int.ModEq
    omega
  · rintro ⟨h1, h2⟩
    rw [shiftCharacter_lower k h1 h2]
    have hm : (c.toNat - 97 + (k % 26).toNat) % 26 < 26 := Nat.mod_lt _ (by decide)
    refine ⟨by omega, by omega, ?_⟩
    unfold Int.ModEq
    omega
  · intro h1 h2
    exact shiftCharacter_other k h1 h2

/-- Witness for C5: shifting `'A'` by 3 stays upper-case and lands on the
congruent code point (`'D'`). -/
theorem shiftCharacter_spec_witness :
    65 ≤ (shiftCharacter 'A' 3).toNat ∧ (shiftCharacter 'A' 3).toNat ≤ 90
    ∧ ((shiftCharacter 'A' 3).toNat : Int) ≡ (('A' : Char).toNat : Int) + 3 [ZMOD 26] :=
  (shiftCharacter_spec 'A' 3).1 (by decide)

/-- Claim C6: the cipher only depends on the shift modulo 26 (true modulo,
landing in `[0, 26)`), every multiple of 26 acts as the identity, and the
wraparound vectors `caesar("A", 29) = "D"` and `caesar("A", -3) = "X"`
hold. -/
theorem caesarCipher_mod26 (s : JSString) (k j : Int) :
    caesarCipher s k = caesarCipher s (k % 26)
    ∧ 0 ≤ k % 26 ∧ k % 26 < 26
    ∧ caesarCipher s (26 * j) = s
    ∧ caesarCipher ['A'] 29 = ['D']
    ∧ caesarCipher ['A'] (-3) = ['X'] :=
  ⟨caesarCipher_shift_congr s (Int.emod_emod_of_dvd k dvd_rfl).symm,
   Int.emod_nonneg k (by decide), Int.emod_lt_of_pos k (by decide),
   caesarCipher_mul26 s j, by decide, by decide⟩

/-- Claim C7: `reverseString` reverses the character sequence exactly, hence
is an involution; the empty and one-character strings are fixed points. -/
theorem reverseString_involution (s : JSString) (c : Char) :
    reverseString (reverseString s) = s
    ∧ reverseString s = s.reverse
    ∧ reverseString ([] : JSString) = []
    ∧ reverseString [c] = [c] := by
  refine ⟨?_, reverseString_eq_reverse s, rfl, rfl⟩
  rw [reverseString_eq_reverse, reverseString_eq_reverse, List.reverse_reverse]

/-- Claim C8: `analyzeArray` returns the all-`null` record on `[]`, rejects
strings and any other non-array with `InvalidArgument`, and on a non-empty
array returns the arithmetic mean, the least element, the greatest element
and the length; `analyze([1,8,3,4,2,6]) = {average: 4, min: 1, max: 8,
length: 6}`. -/
theorem analyzeArray_spec (x : ℚ) (xs : List ℚ) (s : JSString) :
    analyzeArray (.arr []) = .ok ⟨none, none, none, 0⟩
    ∧ analyzeArray (.str s) = .error .invalidArgument
    ∧ analyzeArray .nonArray = .error .invalidArgument
    ∧ (∃ st : ArrayStats, analyzeArray (.arr (x :: xs)) = .ok st
        ∧ st.average = some ((x :: xs).sum / ((x :: xs).length : ℚ))
        ∧ (∃ m, st.min = some m ∧ m ∈ x :: xs ∧ ∀ y ∈ x :: xs, m ≤ y)
        ∧ (∃ M, st.max = some M ∧ M ∈ x :: xs ∧ ∀ y ∈ x :: xs, y ≤ M)
        ∧ st.length = (x :: xs).length)
    ∧ analyzeArray (.arr [1, 8, 3, 4, 2, 6]) = .ok ⟨some 4, some 1, some 8, 6⟩ := by
  refine ⟨rfl, rfl, rfl, ?_, by norm_num [analyzeArray, min_def, max_def]⟩
  refine ⟨_, rfl, ?_, ?_, ?_, ?_⟩
  · simp [analyzeArray, foldl_add_eq_sum, List.sum_cons, List.length_cons]
  · exact ⟨_, rfl, foldl_min_mem xs x, fun y hy => foldl_min_le xs x y hy⟩
  · exact ⟨_, rfl, foldl_max_mem xs x, fun y hy => foldl_le_max xs x y hy⟩
  · simp [analyzeArray, List.length_cons]

/-- Witness for C8: the reference vector `[1,8,3,4,2,6]`. -/
theorem analyzeArray_spec_witness :
    analyzeArray (.arr [1, 8, 3, 4, 2, 6]) = .ok ⟨some 4, some 1, some 8, 6⟩ :=
  (analyzeArray_spec 1 [2] []).2.2.2.2

/-- Claim C9: the cipher output has exactly the length of its input for
every integer shift. -/
theorem caesarCipher_length (s : JSString) (k : Int) :
    (caesarCipher s k).length = s.length := by
  simp [caesarCipher]

/-- Claim C10: every calculator operation rejects `NaN` and `-0` as either
operand with `InvalidArgument` (both are falsy numbers), so no operation
ever computes with them. -/
theorem calculator_rejects_nan_negzero :
    ∀ op ∈ calcOps, ∀ n : JSNumber,
      op .nan n = .error .invalidArgument
      ∧ op n .nan = .error .invalidArgument
      ∧ op .negZero n = .error .invalidArgument
      ∧ op n .negZero = .error .invalidArgument := by
  intro op hop n
  simp only [calcOps, List.mem_cons, List.not_mem_nil, or_false] at hop
  rcases hop with rfl | rfl | rfl | rfl <;> refine ⟨?_, ?_, ?_, ?_⟩ <;>
    simp [calculator.add, calculator.subtract, calculator.divide, calculator.multiply,
      JSNumber.truthy]

/-- Witness for C10: `multiply(NaN, 7)` and `multiply(7, -0)` raise
`InvalidArgument`. -/
theorem calculator_rejects_nan_negzero_witness :
    calculator.multiply .nan (.finite 7) = .error .invalidArgument
    ∧ calculator.multiply (.finite 7) .nan = .error .invalidArgument
    ∧ calculator.multiply .negZero (.finite 7) = .error .invalidArgument
    ∧ calculator.multiply (.finite 7) .negZero = .error .invalidArgument :=
  calculator_rejects_nan_negzero calculator.multiply (by simp [calcOps]) (.finite 7)

end OdinFunctions
